import Mathlib

/-!
# BookBrain core — a shallow embedding in Lean 4

This file embeds the core logic of the BookBrain ebook server
(directory ingest, two-tier classification, FAISS-backed vector store,
ingest orchestration) and proves the testable properties stated in its
specification.

Modelling conventions:
* Python strings are modelled as `List Char` (`Str`); `str.lower()` is
  `Char.toLower` mapped over the list (faithful on the ASCII keyword
  alphabet the classifier uses).
* Python floats are modelled as rationals (`ℚ`); the float values
  appearing in the code (thresholds, scores) are exactly representable
  or only passed through, never computed with.
* External capabilities (the sentence-transformer encoder, the FAISS
  nearest-neighbour engine, the filesystem) are opaque to the program;
  they enter the model as explicit function parameters or outcome
  arguments, and the surrounding Python control flow is embedded
  faithfully.
* Python `dict`s with a fixed key set are modelled as structures whose
  possibly-absent keys are `Option` fields (`none` = key not present);
  the `dict` used as `id_map` is an insertion-ordered association list
  with Python's overwrite-on-existing-key semantics.
-/

set_option maxRecDepth 4000

namespace BookBrain

/-- Python `str` as a list of characters. -/
abbrev Str := List Char

/-- Model of Python's `text.lower()` (ASCII). -/
def lowerStr (s : Str) : Str := s.map Char.toLower

/-! ## Classifier (`src/server/classify/classifier.py`)

`len(re.findall(re.escape(kw), text_lower))` counts non-overlapping,
left-to-right occurrences of the literal keyword: scanning from the left,
a match consumes `kw.length` characters. All taxonomy keywords are
non-empty; an empty pattern is treated as matching nowhere here. -/

/-- Fuel-indexed left-to-right scan; the fuel is only a structural
termination measure and never runs out when it starts at `s.length`
(each step consumes at least one character). -/
def countOccsAux (kw : Str) : Nat → Str → Nat
  | 0, _ => 0
  | _, [] => 0
  | fuel + 1, c :: rest =>
    if kw ≠ [] ∧ kw.isPrefixOf (c :: rest) then
      1 + countOccsAux kw fuel (rest.drop (kw.length - 1))
    else
      countOccsAux kw fuel rest

/-- Number of non-overlapping left-to-right occurrences of `kw` in `s`. -/
def countOccs (kw : Str) (s : Str) : Nat := countOccsAux kw s.length s

/-- One `(category, subcategory, keywords)` entry of `CATEGORY_RULES`. -/
structure RuleEntry where
  category : String
  subcategory : String
  keywords : List Str
deriving DecidableEq, Repr

/-- The fixed two-level taxonomy `CATEGORY_RULES`, in source order. -/
def CATEGORY_RULES : List (String × List (String × List Str)) := [
  ("Programming", [
    ("Python", ["python".toList, "django".toList, "flask".toList, "pandas".toList, "numpy".toList, "pytorch".toList]),
    ("JavaScript", ["javascript".toList, "typescript".toList, "react".toList, "vue".toList, "angular".toList, "node.js".toList, "nodejs".toList]),
    ("Java", ["java ".toList, " java".toList, "spring".toList, "maven".toList, "gradle".toList, "jvm".toList]),
    ("C/C++", ["c programming".toList, "c++".toList, "cpp".toList, "stl ".toList, "cmake".toList, "embedded c".toList]),
    ("Rust", ["rust programming".toList, "rustlang".toList, "cargo ".toList, "tokio".toList]),
    ("Go", ["golang".toList, "go programming".toList]),
    ("Web Development", ["html".toList, "css".toList, "web development".toList, "frontend".toList, "backend".toList, "fullstack".toList]),
    ("Mobile", ["android".toList, "ios development".toList, "swift".toList, "kotlin".toList, "flutter".toList, "react native".toList]),
    ("DevOps", ["docker".toList, "kubernetes".toList, "ci/cd".toList, "devops".toList, "terraform".toList, "ansible".toList]),
    ("General", ["programming".toList, "software engineering".toList, "algorithms".toList, "data structures".toList, "design patterns".toList, "clean code".toList])]),
  ("Data Science", [
    ("Machine Learning", ["machine learning".toList, "deep learning".toList, "neural network".toList, "tensorflow".toList, "keras".toList]),
    ("Data Analysis", ["data analysis".toList, "data visualization".toList, "matplotlib".toList, "tableau".toList]),
    ("Statistics", ["statistics".toList, "probability".toList, "bayesian".toList, "regression".toList]),
    ("NLP", ["natural language processing".toList, "nlp".toList, "text mining".toList, "sentiment analysis".toList]),
    ("Computer Vision", ["computer vision".toList, "image processing".toList, "opencv".toList])]),
  ("Artificial Intelligence", [
    ("General AI", ["artificial intelligence".toList, " ai ".toList, "intelligent systems".toList]),
    ("Deep Learning", ["deep learning".toList, "convolutional".toList, "recurrent".toList, "transformer".toList, "attention mechanism".toList]),
    ("Reinforcement Learning", ["reinforcement learning".toList, "q-learning".toList, "policy gradient".toList]),
    ("LLM", ["large language model".toList, "llm".toList, "gpt".toList, "chatgpt".toList, "prompt engineering".toList])]),
  ("Database", [
    ("SQL", ["sql".toList, "mysql".toList, "postgresql".toList, "sqlite".toList, "oracle database".toList]),
    ("NoSQL", ["nosql".toList, "mongodb".toList, "redis".toList, "cassandra".toList, "elasticsearch".toList]),
    ("Data Engineering", ["data warehouse".toList, "etl".toList, "data pipeline".toList, "spark".toList, "hadoop".toList])]),
  ("System & Network", [
    ("Operating Systems", ["operating system".toList, "linux".toList, "unix".toList, "windows server".toList]),
    ("Networking", ["networking".toList, "tcp/ip".toList, "http".toList, "dns".toList, "network protocol".toList]),
    ("Security", ["cybersecurity".toList, "security".toList, "encryption".toList, "penetration testing".toList, "ethical hacking".toList]),
    ("Cloud", ["cloud computing".toList, "aws".toList, "azure".toList, "gcp".toList, "google cloud".toList])]),
  ("Mathematics", [
    ("Linear Algebra", ["linear algebra".toList, "matrix".toList, "vector space".toList, "eigenvalue".toList]),
    ("Calculus", ["calculus".toList, "differential".toList, "integral".toList]),
    ("Discrete Mathematics", ["discrete math".toList, "graph theory".toList, "combinatorics".toList]),
    ("Optimization", ["optimization".toList, "linear programming".toList, "convex".toList])]),
  ("Science", [
    ("Physics", ["physics".toList, "quantum".toList, "thermodynamics".toList, "mechanics".toList]),
    ("Chemistry", ["chemistry".toList, "organic chemistry".toList, "biochemistry".toList]),
    ("Biology", ["biology".toList, "genetics".toList, "molecular biology".toList, "neuroscience".toList])]),
  ("Business", [
    ("Management", ["management".toList, "leadership".toList, "organizational".toList]),
    ("Finance", ["finance".toList, "investment".toList, "accounting".toList, "trading".toList]),
    ("Marketing", ["marketing".toList, "branding".toList, "advertising".toList, "seo".toList]),
    ("Entrepreneurship", ["startup".toList, "entrepreneurship".toList, "business plan".toList])]),
  ("Literature", [
    ("Fiction", ["novel".toList, "fiction".toList, "short stories".toList]),
    ("Non-Fiction", ["biography".toList, "memoir".toList, "essay".toList]),
    ("Philosophy", ["philosophy".toList, "ethics".toList, "logic".toList, "metaphysics".toList]),
    ("History", ["history".toList, "civilization".toList, "ancient".toList, "medieval".toList])])]

/-- The taxonomy `CATEGORY_RULES` flattened to `(category, subcategory, keywords)`
entries, in the nested iteration order of `_rule_classify`. -/
def flatEntries : List RuleEntry :=
  (CATEGORY_RULES.map (fun p => p.2.map (fun q => RuleEntry.mk p.1 q.1 q.2))).flatten

/-- A subcategory's score over lowercased text `t`:
`sum over keywords of min(occurrence_count, 5)`. -/
def entryScore (t : Str) (kws : List Str) : Nat :=
  (kws.map (fun kw => min (countOccs kw t) 5)).sum

/-- One iteration of `_rule_classify`'s best-tracking loop:
replace the best match only on a strictly greater score. -/
def bestStep (t : Str) (acc : Option (String × String) × Nat) (e : RuleEntry) :
    Option (String × String) × Nat :=
  if acc.2 < entryScore t e.keywords then
    (some (e.category, e.subcategory), entryScore t e.keywords)
  else acc

/-- Model of `Classifier._rule_classify`: lowercase, score every taxonomy entry,
keep the strict-greater best, require a best score of at least 3. -/
def ruleClassify (text : Str) : Option (String × String) :=
  if 3 ≤ (flatEntries.foldl (bestStep (lowerStr text)) (none, 0)).2 then
    (flatEntries.foldl (bestStep (lowerStr text)) (none, 0)).1
  else none

/-- The `dict` returned by `Classifier.classify`; keys that a path does not
set are `none`.  The Python dicts never set a `"source"` key. -/
structure ClassifyResult where
  category : String
  subcategory : Option String
  confidence : Option ℚ := none
  source : Option String := none
deriving DecidableEq, Repr

/-- Model of `Classifier.classify`, parameterised by the embedding-fallback tier
`ml` (`_ml_classify`: opaque model encode + cosine argmax + 0.3 threshold,
any exception caught to `None`).  A non-`None` `_ml_classify` result always
carries a confidence, as in the source. -/
def classifyWith (ml : Str → Option (String × Option String × ℚ))
    (title text author : Str) : ClassifyResult :=
  match ruleClassify (title ++ [' '] ++ author ++ [' '] ++ text) with
  | some (c, s) => { category := c, subcategory := some s }
  | none =>
    match ml (title ++ [' '] ++ author ++ [' '] ++ text) with
    | some (c, s, conf) => { category := c, subcategory := s, confidence := some conf }
    | none => { category := "Uncategorized", subcategory := none }

example : countOccs "sql".toList "sql sql sql  ".toList = 3 := by decide
example : ruleClassify "sql sql sql  ".toList = some ("Database", "SQL") := by decide
example : classifyWith (fun _ => none) [] [] [] =
    { category := "Uncategorized", subcategory := none } := by decide

/-! ### Rule-tier lemmas: the strict-greater fold keeps the first argmax -/

lemma foldl_bestStep_le (t : Str) (l : List RuleEntry) (b : Option (String × String))
    (s m : Nat) (hs : s ≤ m) (hl : ∀ e ∈ l, entryScore t e.keywords ≤ m) :
    (l.foldl (bestStep t) (b, s)).2 ≤ m := by
  induction l generalizing b s with
  | nil => simpa using hs
  | cons e rest ih =>
    simp only [List.foldl_cons, bestStep]
    by_cases h : s < entryScore t e.keywords
    · rw [if_pos h]
      exact ih _ _ (hl e (List.mem_cons_self _ _)) (fun x hx => hl x (List.mem_cons_of_mem _ hx))
    · rw [if_neg h]
      exact ih _ _ hs (fun x hx => hl x (List.mem_cons_of_mem _ hx))

lemma foldl_bestStep_keep (t : Str) (l : List RuleEntry) (b : Option (String × String))
    (s : Nat) (hl : ∀ e ∈ l, entryScore t e.keywords ≤ s) :
    l.foldl (bestStep t) (b, s) = (b, s) := by
  induction l with
  | nil => rfl
  | cons e rest ih =>
    simp only [List.foldl_cons, bestStep]
    rw [if_neg (by have := hl e (List.mem_cons_self _ _); omega)]
    exact ih (fun x hx => hl x (List.mem_cons_of_mem _ hx))

lemma foldl_bestStep_argmax (t : Str) (l1 l2 : List RuleEntry) (e : RuleEntry)
    (b : Option (String × String)) (s : Nat)
    (hs : s < entryScore t e.keywords)
    (h1 : ∀ x ∈ l1, entryScore t x.keywords < entryScore t e.keywords)
    (h2 : ∀ x ∈ l2, entryScore t x.keywords ≤ entryScore t e.keywords) :
    (l1 ++ e :: l2).foldl (bestStep t) (b, s) =
      (some (e.category, e.subcategory), entryScore t e.keywords) := by
  rw [List.foldl_append]
  have hlt : (l1.foldl (bestStep t) (b, s)).2 < entryScore t e.keywords := by
    have := foldl_bestStep_le t l1 b s (entryScore t e.keywords - 1) (by omega)
      (fun x hx => by have := h1 x hx; omega)
    omega
  rw [List.foldl_cons]
  have hstep : bestStep t (l1.foldl (bestStep t) (b, s)) e =
      (some (e.category, e.subcategory), entryScore t e.keywords) := by
    simp [bestStep, hlt]
  rw [hstep]
  exact foldl_bestStep_keep t l2 _ _ h2

lemma ruleClassify_first_argmax (text : Str) (l1 l2 : List RuleEntry) (e : RuleEntry)
    (hsplit : flatEntries = l1 ++ e :: l2)
    (hs3 : 3 ≤ entryScore (lowerStr text) e.keywords)
    (h1 : ∀ x ∈ l1, entryScore (lowerStr text) x.keywords < entryScore (lowerStr text) e.keywords)
    (h2 : ∀ x ∈ l2, entryScore (lowerStr text) x.keywords ≤ entryScore (lowerStr text) e.keywords) :
    ruleClassify text = some (e.category, e.subcategory) := by
  unfold ruleClassify
  rw [hsplit, foldl_bestStep_argmax _ _ _ _ _ _ (by omega) h1 h2]
  simp [hs3]

lemma classifyWith_of_rule (ml : Str → Option (String × Option String × ℚ))
    (title text author : Str) (c s : String)
    (h : ruleClassify (title ++ [' '] ++ author ++ [' '] ++ text) = some (c, s)) :
    classifyWith ml title text author = { category := c, subcategory := some s } := by
  unfold classifyWith
  rw [h]

/-- C2: For every input whose capped rule score is at least 3 for exactly
one `(category, subcategory)` and strictly lower for every other taxonomy
entry, `classify` returns that pair via the rule tier; and when no
subcategory reaches score 3, the rule tier returns no match. -/
theorem rule_unique_winner (ml : Str → Option (String × Option String × ℚ))
    (title text author : Str) (e : RuleEntry)
    (he : e ∈ flatEntries)
    (hs3 : 3 ≤ entryScore (lowerStr (title ++ [' '] ++ author ++ [' '] ++ text)) e.keywords)
    (huniq : ∀ e' ∈ flatEntries, e' ≠ e →
      entryScore (lowerStr (title ++ [' '] ++ author ++ [' '] ++ text)) e'.keywords <
        entryScore (lowerStr (title ++ [' '] ++ author ++ [' '] ++ text)) e.keywords) :
    (ruleClassify (title ++ [' '] ++ author ++ [' '] ++ text) =
        some (e.category, e.subcategory) ∧
      classifyWith ml title text author =
        { category := e.category, subcategory := some e.subcategory }) ∧
    ∀ text', (∀ e' ∈ flatEntries, entryScore (lowerStr text') e'.keywords < 3) →
      ruleClassify text' = none := by
  constructor
  · have hnd : flatEntries.Nodup := by decide
    obtain ⟨l1, l2, hsplit⟩ := List.append_of_mem he
    rw [hsplit] at hnd
    rw [List.nodup_append] at hnd
    have he1 : e ∉ l1 := fun hmem => hnd.2.2 hmem (List.mem_cons_self _ _)
    have he2 : e ∉ l2 := (List.nodup_cons.mp hnd.2.1).1
    have hrule : ruleClassify (title ++ [' '] ++ author ++ [' '] ++ text) =
        some (e.category, e.subcategory) := by
      refine ruleClassify_first_argmax _ l1 l2 e hsplit hs3 ?_ ?_
      · intro x hx
        exact huniq x (hsplit ▸ List.mem_append_left _ hx)
          (fun hxe => he1 (hxe ▸ hx))
      · intro x hx
        exact le_of_lt (huniq x (hsplit ▸ List.mem_append_right _ (List.mem_cons_of_mem _ hx))
          (fun hxe => he2 (hxe ▸ hx)))
    exact ⟨hrule, classifyWith_of_rule ml title text author _ _ hrule⟩
  · intro text' hlow
    unfold ruleClassify
    have hle : (flatEntries.foldl (bestStep (lowerStr text')) (none, 0)).2 ≤ 2 :=
      foldl_bestStep_le _ _ _ _ _ (by omega) (fun x hx => by have := hlow x hx; omega)
    rw [if_neg (by omega)]

theorem rule_unique_winner_witness :
    (ruleClassify ("sql sql sql".toList ++ [' '] ++ [] ++ [' '] ++ []) =
        some ("Database", "SQL") ∧
      classifyWith (fun _ => none) "sql sql sql".toList [] [] =
        { category := "Database", subcategory := some "SQL" }) ∧
    ∀ text', (∀ e' ∈ flatEntries, entryScore (lowerStr text') e'.keywords < 3) →
      ruleClassify text' = none :=
  rule_unique_winner (fun _ => none) "sql sql sql".toList [] []
    ⟨"Database", "SQL",
      ["sql".toList, "mysql".toList, "postgresql".toList, "sqlite".toList,
        "oracle database".toList]⟩
    (by decide) (by decide) (by decide)

/-- C9 (counterexample): The claim is false as stated: on empty input all
41 taxonomy entries tie at the best capped score (0), yet `classify` does not
return the first taxonomy entry (Programming / Python) — the rule tier only
returns a tied best when the best score reaches 3, so the run falls through
to the fallback and the default. -/
theorem tie_break_cex :
    (∀ e ∈ flatEntries,
        entryScore (lowerStr ([] ++ [' '] ++ [] ++ [' '] ++ [])) e.keywords = 0) ∧
    (flatEntries.head?.map (fun e => (e.category, e.subcategory)) =
      some ("Programming", "Python")) ∧
    classifyWith (fun _ => none) [] [] [] ≠
      { category := "Programming", subcategory := some "Python" } ∧
    classifyWith (fun _ => none) [] [] [] =
      { category := "Uncategorized", subcategory := none } := by
  refine ⟨by decide, by decide, by decide, by decide⟩

/-- C9 (amended): Rule-tier tie-break is deterministic once the tied best
capped score is at least 3: if `e` is the first taxonomy entry attaining the
best score (every earlier entry scores strictly lower, every later entry at
most as high — in particular any number of later entries may tie), then
`classify` returns `e`'s pair, because the best-score comparison is strict
greater-than over taxonomy iteration order. -/
theorem tie_break_first_wins (ml : Str → Option (String × Option String × ℚ))
    (title text author : Str) (l1 l2 : List RuleEntry) (e : RuleEntry)
    (hsplit : flatEntries = l1 ++ e :: l2)
    (hs3 : 3 ≤ entryScore (lowerStr (title ++ [' '] ++ author ++ [' '] ++ text)) e.keywords)
    (h1 : ∀ x ∈ l1, entryScore (lowerStr (title ++ [' '] ++ author ++ [' '] ++ text)) x.keywords <
        entryScore (lowerStr (title ++ [' '] ++ author ++ [' '] ++ text)) e.keywords)
    (h2 : ∀ x ∈ l2, entryScore (lowerStr (title ++ [' '] ++ author ++ [' '] ++ text)) x.keywords ≤
        entryScore (lowerStr (title ++ [' '] ++ author ++ [' '] ++ text)) e.keywords) :
    ruleClassify (title ++ [' '] ++ author ++ [' '] ++ text) =
        some (e.category, e.subcategory) ∧
      classifyWith ml title text author =
        { category := e.category, subcategory := some e.subcategory } := by
  have hrule := ruleClassify_first_argmax _ l1 l2 e hsplit hs3 h1 h2
  exact ⟨hrule, classifyWith_of_rule ml title text author _ _ hrule⟩

/-- The phrase "deep learning" is a keyword of both Data Science / Machine Learning
(taxonomy position 10) and Artificial Intelligence / Deep Learning
(position 16); three occurrences give both entries the tied best score 3,
and the earlier entry wins. -/
theorem tie_break_first_wins_witness :
    ruleClassify ("deep learning deep learning deep learning".toList ++ [' '] ++ [] ++ [' '] ++ []) =
        some ("Data Science", "Machine Learning") ∧
      classifyWith (fun _ => none) "deep learning deep learning deep learning".toList [] [] =
        { category := "Data Science", subcategory := some "Machine Learning" } :=
  tie_break_first_wins (fun _ => none)
    "deep learning deep learning deep learning".toList [] []
    (flatEntries.take 10) (flatEntries.drop 11)
    ⟨"Data Science", "Machine Learning",
      ["machine learning".toList, "deep learning".toList, "neural network".toList,
        "tensorflow".toList, "keras".toList]⟩
    (by decide) (by decide) (by decide) (by decide)

/-! ## Vector store (`src/server/search/vector_store.py`)

`VectorStore` holds the FAISS index (modelled as the list of its vectors,
over an abstract vector type `V` produced by the opaque encoder), the
`_id_map` dict (insertion-ordered association list with overwrite-on-
existing-key semantics) and the `_next_id` counter.  Persistence is I/O;
where a claim mentions it, the model records the states passed to
`_save_index`. -/

/-- Python `dict[int, int]` assignment `m[k] = v`: overwrite in place if the
key exists, else append. -/
def mapInsert (m : List (Nat × Nat)) (k v : Nat) : List (Nat × Nat) :=
  if m.any (fun p => p.1 == k) then
    m.map (fun p => if p.1 == k then (k, v) else p)
  else m ++ [(k, v)]

/-- Python `m.get(k)`. -/
def mapGet (m : List (Nat × Nat)) (k : Nat) : Option Nat :=
  (m.find? (fun p => p.1 == k)).map (fun p => p.2)

/-- Python `m.get(int(idx))` for a FAISS result index: the map holds only
non-negative keys. -/
def intGet (m : List (Nat × Nat)) (idx : Int) : Option Nat :=
  if idx < 0 then none else mapGet m idx.toNat

/-- In-memory state of `VectorStore`: the FAISS index's vectors, `_id_map`
and `_next_id`. -/
structure StoreState (V : Type) where
  vecs : List V
  idMap : List (Nat × Nat)
  nextId : Nat

/-- Where `add_text` can fail: encoding raises (before any mutation),
`index.add` raises (before the map and counter are touched), or the
periodic `_save_index` raises (after all mutations). -/
inductive AddFault
  | encodeFail
  | indexAddFail
  | saveFail
  | ok

/-- Model of `VectorStore.add_text`: encode, `vector_id = next_id`, append the
vector, record `id_map[vector_id] = book_id`, increment `next_id`, persist
every tenth addition; any exception is caught and yields `None`.  A save
failure happens after the mutations, so the state is kept but `None` is
returned (and only when the save was actually triggered). -/
def addText {V : Type} (enc : Str → V) (s : StoreState V) (text : Str)
    (bookId : Nat) (f : AddFault) : StoreState V × Option Nat :=
  match f with
  | .encodeFail => (s, none)
  | .indexAddFail => (s, none)
  | .saveFail =>
    (⟨s.vecs ++ [enc text], mapInsert s.idMap s.nextId bookId, s.nextId + 1⟩,
      if (s.nextId + 1) % 10 = 0 then none else some s.nextId)
  | .ok =>
    (⟨s.vecs ++ [enc text], mapInsert s.idMap s.nextId bookId, s.nextId + 1⟩,
      some s.nextId)

/-- A sequence of `add_text` calls; returns the final state and the ids the
successful calls returned, in call order. -/
def runAdds {V : Type} (enc : Str → V) (s : StoreState V) :
    List (Str × Nat × AddFault) → StoreState V × List Nat
  | [] => (s, [])
  | (t, b, f) :: rest =>
    ((runAdds enc (addText enc s t b f).1 rest).1,
      (addText enc s t b f).2.toList ++ (runAdds enc (addText enc s t b f).1 rest).2)

/-- The spec's `VectorIndexState` invariant: `next_id == index.size`, and
the id-mapping's keys are exactly `0, 1, …, next_id - 1` in insertion
order — so every vector in the index has exactly one entry in the
mapping. -/
def StoreInv {V : Type} (s : StoreState V) : Prop :=
  s.nextId = s.vecs.length ∧ s.idMap.map Prod.fst = List.range s.nextId

lemma mapInsert_fresh (m : List (Nat × Nat)) (k v : Nat)
    (h : ∀ p ∈ m, p.1 ≠ k) : mapInsert m k v = m ++ [(k, v)] := by
  have hc : m.any (fun p => p.1 == k) = false := by
    rw [List.any_eq_false]
    intro p hp
    simpa using h p hp
  simp [mapInsert, hc]

lemma addText_spec {V : Type} (enc : Str → V) (s : StoreState V) (t : Str)
    (b : Nat) (f : AddFault) (h : StoreInv s) :
    StoreInv (addText enc s t b f).1 ∧
    (∀ r, (addText enc s t b f).2 = some r → r = s.nextId) ∧
    s.nextId ≤ (addText enc s t b f).1.nextId ∧
    ((addText enc s t b f).2 ≠ none → (addText enc s t b f).1.nextId = s.nextId + 1) := by
  have hfresh : ∀ p ∈ s.idMap, p.1 ≠ s.nextId := by
    intro p hp
    have : p.1 ∈ s.idMap.map Prod.fst := List.mem_map_of_mem _ hp
    rw [h.2, List.mem_range] at this
    omega
  have hmut : StoreInv (⟨s.vecs ++ [enc t], mapInsert s.idMap s.nextId b,
      s.nextId + 1⟩ : StoreState V) := by
    constructor
    · simp [h.1]
    · rw [mapInsert_fresh _ _ _ hfresh]
      simp [h.2, List.range_succ]
  cases f with
  | encodeFail => exact ⟨h, by simp [addText], by simp [addText], by simp [addText]⟩
  | indexAddFail => exact ⟨h, by simp [addText], by simp [addText], by simp [addText]⟩
  | saveFail =>
    refine ⟨hmut, ?_, by simp [addText], by simp [addText]⟩
    intro r hr
    simp only [addText] at hr
    split at hr
    · exact absurd hr (by simp)
    · exact (Option.some_inj.mp hr).symm
  | ok =>
    exact ⟨hmut, fun r hr => (Option.some_inj.mp hr).symm,
      by simp [addText], by simp [addText]⟩

lemma runAdds_spec {V : Type} (enc : Str → V) (ops : List (Str × Nat × AddFault))
    (s : StoreState V) (h : StoreInv s) :
    StoreInv (runAdds enc s ops).1 ∧
    s.nextId ≤ (runAdds enc s ops).1.nextId ∧
    (∀ i ∈ (runAdds enc s ops).2, s.nextId ≤ i ∧ i < (runAdds enc s ops).1.nextId) ∧
    (runAdds enc s ops).2.Pairwise (· < ·) := by
  induction ops generalizing s with
  | nil => exact ⟨h, le_refl _, by simp [runAdds], by simp [runAdds]⟩
  | cons op rest ih =>
    obtain ⟨t, b, f⟩ := op
    obtain ⟨hinv1, hret, hmono1, hsucc⟩ := addText_spec enc s t b f h
    obtain ⟨hinvF, hmonoF, hidsF, hpwF⟩ := ih _ hinv1
    simp only [runAdds]
    have hids : ∀ i ∈ (addText enc s t b f).2.toList ++
        (runAdds enc (addText enc s t b f).1 rest).2,
        s.nextId ≤ i ∧ i < (runAdds enc (addText enc s t b f).1 rest).1.nextId := by
      intro i hi
      rcases List.mem_append.mp hi with hi | hi
      · rw [Option.mem_toList, Option.mem_def] at hi
        have hr := hret i hi
        have hstep := hsucc (by simp [hi])
        omega
      · have := hidsF i hi
        omega
    refine ⟨hinvF, le_trans hmono1 hmonoF, hids, ?_⟩
    rcases hcase : (addText enc s t b f).2 with _ | r
    · simpa using hpwF
    · simp only [Option.toList_some, List.singleton_append]
      refine List.pairwise_cons.mpr ⟨?_, hpwF⟩
      intro i hi
      have hr := hret r hcase
      have hstep := hsucc (by simp [hcase])
      have := (hidsF i hi).1
      omega

/-- C1: The vector-id space is dense and monotonic: the invariant
`next_id == index.size` with the id-mapping's keys being exactly the vector
ids `0 … next_id - 1` (one entry per vector) is preserved by any sequence
of `add_text` calls, whatever their failure modes; each successful call
returns the previous `next_id` and increments it; and the ids returned by
the successful calls of any such sequence are strictly increasing (hence
never reused), including after failed calls. -/
theorem vector_id_space (V : Type) (enc : Str → V) (s : StoreState V)
    (ops : List (Str × Nat × AddFault)) (h : StoreInv s) :
    StoreInv (runAdds enc s ops).1 ∧
    (∀ t b f r, (addText enc s t b f).2 = some r →
      r = s.nextId ∧ (addText enc s t b f).1.nextId = s.nextId + 1) ∧
    (runAdds enc s ops).2.Pairwise (· < ·) ∧
    (∀ i ∈ (runAdds enc s ops).2, s.nextId ≤ i) := by
  obtain ⟨hinv, _, hids, hpw⟩ := runAdds_spec enc ops s h
  refine ⟨hinv, ?_, hpw, fun i hi => (hids i hi).1⟩
  intro t b f r hr
  obtain ⟨_, hret, _, hsucc⟩ := addText_spec enc s t b f h
  exact ⟨hret r hr, hsucc (by simp [hr])⟩

theorem vector_id_space_witness :
    StoreInv (⟨[], [], 0⟩ : StoreState Nat) ∧
    (StoreInv (runAdds (fun t => t.length) (⟨[], [], 0⟩ : StoreState Nat)
        [("a".toList, 7, .ok), ("b".toList, 8, .encodeFail), ("c".toList, 9, .ok)]).1 ∧
      (∀ t b f r,
        (addText (fun t => t.length) (⟨[], [], 0⟩ : StoreState Nat) t b f).2 = some r →
        r = 0 ∧ (addText (fun t => t.length) (⟨[], [], 0⟩ : StoreState Nat) t b f).1.nextId = 1) ∧
      (runAdds (fun t => t.length) (⟨[], [], 0⟩ : StoreState Nat)
        [("a".toList, 7, .ok), ("b".toList, 8, .encodeFail), ("c".toList, 9, .ok)]).2.Pairwise (· < ·) ∧
      (∀ i ∈ (runAdds (fun t => t.length) (⟨[], [], 0⟩ : StoreState Nat)
        [("a".toList, 7, .ok), ("b".toList, 8, .encodeFail), ("c".toList, 9, .ok)]).2, 0 ≤ i)) :=
  ⟨⟨rfl, rfl⟩, vector_id_space Nat (fun t => t.length) ⟨[], [], 0⟩
    [("a".toList, 7, .ok), ("b".toList, 8, .encodeFail), ("c".toList, 9, .ok)] ⟨rfl, rfl⟩⟩

/-- Model of `VectorStore.search`: empty index short-circuits to `[]`; any exception
(in particular a query-encoding failure) is caught and yields `[]`;
otherwise `k = min(top_k, index.ntotal)` neighbours are requested from the
FAISS engine (an opaque parameter returning `(score, index)` pairs) and
each returned vector-id is mapped through `_id_map`, skipping the `-1`
sentinel and ids absent from the mapping. -/
def vsSearch {V : Type} (s : StoreState V) (topK : Nat)
    (engine : Nat → List (ℚ × Int)) (encodeFails : Bool) : List (Nat × ℚ) :=
  if s.vecs.length = 0 then []
  else if encodeFails then []
  else
    (engine (min topK s.vecs.length)).filterMap (fun p =>
      if p.2 = -1 then none
      else
        match intGet s.idMap p.2 with
        | some b => some (b, p.1)
        | none => none)

/-- C3: `search` on an empty index returns `[]`; on a non-empty index it
requests `k = min(top_k, total_vectors)` neighbours (hypotheses `hlen`,
`hsort` state the FAISS contract for that request: `k` results, sorted by
descending score), maps each returned vector-id through the id mapping
while skipping the `-1` sentinel and absent ids, and returns at most
index-size results ordered by descending similarity score. -/
theorem search_spec (V : Type) (s : StoreState V) (topK : Nat)
    (engine : Nat → List (ℚ × Int)) (encodeFails : Bool)
    (hlen : (engine (min topK s.vecs.length)).length = min topK s.vecs.length)
    (hsort : (engine (min topK s.vecs.length)).Pairwise (fun a b => b.1 ≤ a.1)) :
    (s.vecs.length = 0 → vsSearch s topK engine encodeFails = []) ∧
    (vsSearch s topK engine encodeFails).length ≤ s.vecs.length ∧
    (vsSearch s topK engine encodeFails).Pairwise (fun a b => b.2 ≤ a.2) ∧
    (∀ p ∈ vsSearch s topK engine encodeFails, ∃ idx : Int,
      (p.2, idx) ∈ engine (min topK s.vecs.length) ∧ idx ≠ -1 ∧
        intGet s.idMap idx = some p.1) := by
  by_cases h0 : s.vecs.length = 0
  · simp [vsSearch, h0]
  by_cases hf : encodeFails
  · simp [vsSearch, h0, hf]
  have hdef : vsSearch s topK engine encodeFails =
      (engine (min topK s.vecs.length)).filterMap (fun p =>
        if p.2 = -1 then none
        else
          match intGet s.idMap p.2 with
          | some b => some (b, p.1)
          | none => none) := by
    simp [vsSearch, h0, hf]
  refine ⟨fun h => absurd h h0, ?_, ?_, ?_⟩
  · rw [hdef]
    calc ((engine (min topK s.vecs.length)).filterMap _).length
        ≤ (engine (min topK s.vecs.length)).length := List.length_filterMap_le _ _
      _ = min topK s.vecs.length := hlen
      _ ≤ s.vecs.length := Nat.min_le_right _ _
  · rw [hdef]
    refine List.Pairwise.filterMap _ ?_ hsort
    intro a a' hle b hb b' hb'
    simp only [Option.mem_def] at hb hb'
    split at hb
    · exact absurd hb (by simp)
    split at hb
    · split at hb'
      · exact absurd hb' (by simp)
      split at hb'
      · cases hb; cases hb'; exact hle
      · exact absurd hb' (by simp)
    · exact absurd hb (by simp)
  · intro p hp
    rw [hdef] at hp
    obtain ⟨a, ha, hfa⟩ := List.mem_filterMap.mp hp
    refine ⟨a.2, ?_⟩
    split at hfa
    · exact absurd hfa (by simp)
    rename_i hne
    split at hfa
    · rename_i b hb
      cases hfa
      exact ⟨ha, hne, hb⟩
    · exact absurd hfa (by simp)

theorem search_spec_witness :
    ((⟨[0, 0], [(0, 100), (1, 101)], 2⟩ : StoreState Nat).vecs.length = 0 →
      vsSearch ⟨[0, 0], [(0, 100), (1, 101)], 2⟩ 5
        (fun _ => [((1 : ℚ), (1 : Int)), ((0 : ℚ), -1)]) false = []) ∧
    (vsSearch (⟨[0, 0], [(0, 100), (1, 101)], 2⟩ : StoreState Nat) 5
      (fun _ => [((1 : ℚ), (1 : Int)), ((0 : ℚ), -1)]) false).length ≤ 2 ∧
    (vsSearch (⟨[0, 0], [(0, 100), (1, 101)], 2⟩ : StoreState Nat) 5
      (fun _ => [((1 : ℚ), (1 : Int)), ((0 : ℚ), -1)]) false).Pairwise
        (fun a b => b.2 ≤ a.2) ∧
    (∀ p ∈ vsSearch (⟨[0, 0], [(0, 100), (1, 101)], 2⟩ : StoreState Nat) 5
        (fun _ => [((1 : ℚ), (1 : Int)), ((0 : ℚ), -1)]) false, ∃ idx : Int,
      (p.2, idx) ∈ [((1 : ℚ), (1 : Int)), ((0 : ℚ), -1)] ∧ idx ≠ -1 ∧
        intGet [(0, 100), (1, 101)] idx = some p.1) :=
  search_spec Nat ⟨[0, 0], [(0, 100), (1, 101)], 2⟩ 5
    (fun _ => [((1 : ℚ), (1 : Int)), ((0 : ℚ), -1)]) false (by decide) (by decide)

/-- The per-batch `for book_id in batch_ids:` loop of `VectorStore.rebuild`:
`id_map[next_id] = book_id; next_id += 1` for each id, threading
`(_id_map, _next_id)`. -/
def insertIds (m : List (Nat × Nat)) (n : Nat) (ids : List Nat) :
    List (Nat × Nat) × Nat :=
  ids.foldl (fun acc b => (mapInsert acc.1 acc.2 b, acc.2 + 1)) (m, n)

/-- The `for batch_start in range(0, len(texts), batch_size)` loop of
`VectorStore.rebuild`, one recursive step per batch.  The fuel is only a
structural termination measure: starting it at `pairs.length` it never
runs out when `0 < bs` (Python raises `ValueError` on a zero `range`
step, so `bs = 0` never reaches the loop). -/
def rebuildBatches {V : Type} (enc : Str → V) (bs : Nat) :
    Nat → List (Str × Nat) → StoreState V → StoreState V
  | _, [], st => st
  | 0, _, st => st
  | fuel + 1, pairs, st =>
    rebuildBatches enc bs fuel (pairs.drop bs)
      ⟨st.vecs ++ (pairs.take bs).map (fun p => enc p.1),
        (insertIds st.idMap st.nextId ((pairs.take bs).map Prod.snd)).1,
        (insertIds st.idMap st.nextId ((pairs.take bs).map Prod.snd)).2⟩

/-- Model of `VectorStore.rebuild`: discard the in-memory state (a fresh empty
index, empty `id_map`, `next_id = 0`), insert the pairs in `batch_size`
batches assigning vector-ids sequentially, then `_save_index()` once at
the end.  The second component records the states passed to
`_save_index`, in call order. -/
def rebuildStore {V : Type} (enc : Str → V) (bs : Nat) (prior : StoreState V)
    (pairs : List (Str × Nat)) : StoreState V × List (StoreState V) :=
  (rebuildBatches enc bs pairs.length pairs ⟨[], [], 0⟩,
    [rebuildBatches enc bs pairs.length pairs ⟨[], [], 0⟩])

lemma insertIds_spec (ids : List Nat) (m : List (Nat × Nat)) (n : Nat)
    (h : ∀ p ∈ m, p.1 < n) :
    (insertIds m n ids).1 = m ++ (List.range' n ids.length).zip ids ∧
    (insertIds m n ids).2 = n + ids.length := by
  induction ids generalizing m n with
  | nil => simp [insertIds]
  | cons b rest ih =>
    have hstep : insertIds m n (b :: rest) = insertIds (m ++ [(n, b)]) (n + 1) rest := by
      simp [insertIds, mapInsert_fresh m n b (fun p hp => Nat.ne_of_lt (h p hp))]
    have hfresh : ∀ p ∈ m ++ [(n, b)], p.1 < n + 1 := by
      intro p hp
      rcases List.mem_append.mp hp with hp | hp
      · exact Nat.lt_succ_of_lt (h p hp)
      · simp only [List.mem_singleton] at hp
        simp [hp]
    obtain ⟨h1, h2⟩ := ih (m ++ [(n, b)]) (n + 1) hfresh
    rw [hstep]
    constructor
    · rw [h1, List.length_cons, List.range'_succ, List.zip_cons_cons, List.append_assoc]
      rfl
    · rw [h2, List.length_cons]
      omega

lemma rebuildBatches_cons {V : Type} (enc : Str → V) (bs fuel : Nat)
    (q : Str × Nat) (rest : List (Str × Nat)) (st : StoreState V) :
    rebuildBatches enc bs (fuel + 1) (q :: rest) st =
      rebuildBatches enc bs fuel ((q :: rest).drop bs)
        ⟨st.vecs ++ ((q :: rest).take bs).map (fun p => enc p.1),
          (insertIds st.idMap st.nextId (((q :: rest).take bs).map Prod.snd)).1,
          (insertIds st.idMap st.nextId (((q :: rest).take bs).map Prod.snd)).2⟩ := rfl

lemma rebuildBatches_spec {V : Type} (enc : Str → V) (bs : Nat) (hbs : 0 < bs)
    (fuel : Nat) :
    ∀ (pairs : List (Str × Nat)) (st : StoreState V), pairs.length ≤ fuel →
    (∀ p ∈ st.idMap, p.1 < st.nextId) →
    rebuildBatches enc bs fuel pairs st =
      ⟨st.vecs ++ pairs.map (fun p => enc p.1),
        st.idMap ++ (List.range' st.nextId pairs.length).zip (pairs.map Prod.snd),
        st.nextId + pairs.length⟩ := by
  induction fuel with
  | zero =>
    intro pairs st hlen _
    rw [List.length_eq_zero.mp (Nat.le_zero.mp hlen)]
    simp [rebuildBatches]
  | succ fuel ih =>
    intro pairs st hlen h
    rcases pairs with _ | ⟨q, rest⟩
    · simp [rebuildBatches]
    rw [rebuildBatches_cons]
    obtain ⟨hmap, hnext⟩ :=
      insertIds_spec (((q :: rest).take bs).map Prod.snd) st.idMap st.nextId h
    have hfresh2 :
        ∀ p ∈ (insertIds st.idMap st.nextId (((q :: rest).take bs).map Prod.snd)).1,
          p.1 < (insertIds st.idMap st.nextId (((q :: rest).take bs).map Prod.snd)).2 := by
      rw [hmap, hnext]
      intro p hp
      rcases List.mem_append.mp hp with hp | hp
      · have := h p hp
        omega
      · have := (List.of_mem_zip hp).1
        rw [List.mem_range'_1] at this
        omega
    have hdlen : ((q :: rest).drop bs).length ≤ fuel := by
      simp only [List.length_drop, List.length_cons]
      simp only [List.length_cons] at hlen
      omega
    rw [ih ((q :: rest).drop bs) _ hdlen hfresh2]
    simp only [hmap, hnext, List.length_map]
    simp only [StoreState.mk.injEq]
    refine ⟨?_, ?_, ?_⟩
    · rw [List.append_assoc, ← List.map_append, List.take_append_drop]
    · rw [List.append_assoc]
      congr 1
      rw [← List.zip_append (by simp), List.range'_append_1, ← List.map_append,
        List.take_append_drop]
      have h4 : ((q :: rest).drop bs).length + ((q :: rest).take bs).length =
          ((q :: rest) : List (Str × Nat)).length := by
        simp only [List.length_drop, List.length_take, List.length_cons]
        omega
      rw [h4]
    · simp only [List.length_drop, List.length_take, List.length_cons]
      omega

/-- C10: `rebuild(pairs)` discards all prior in-memory state (the result
does not depend on it), produces an index holding exactly the encodings of
the input texts in input order with vector-ids assigned sequentially from 0
(the mapping sends vector-id `i` to the owner id of the `i`-th pair,
`next_id` ends at `len(pairs)`, and the store invariant holds), and
persists exactly once, at the end, with the fully rebuilt state. -/
theorem rebuild_spec (V : Type) (enc : Str → V) (bs : Nat)
    (prior : StoreState V) (pairs : List (Str × Nat)) (hbs : 0 < bs) :
    (rebuildStore enc bs prior pairs).1.vecs = pairs.map (fun p => enc p.1) ∧
    (rebuildStore enc bs prior pairs).1.idMap =
      (List.range pairs.length).zip (pairs.map Prod.snd) ∧
    (rebuildStore enc bs prior pairs).1.nextId = pairs.length ∧
    StoreInv (rebuildStore enc bs prior pairs).1 ∧
    (rebuildStore enc bs prior pairs).2 = [(rebuildStore enc bs prior pairs).1] ∧
    (∀ prior' : StoreState V, rebuildStore enc bs prior' pairs =
      rebuildStore enc bs prior pairs) := by
  have hbase := rebuildBatches_spec enc bs hbs pairs.length pairs ⟨[], [], 0⟩
    (le_refl _) (by simp)
  have hfinal : (rebuildStore enc bs prior pairs).1 =
      ⟨pairs.map (fun p => enc p.1),
        (List.range' 0 pairs.length).zip (pairs.map Prod.snd), pairs.length⟩ := by
    unfold rebuildStore
    rw [hbase]
    simp
  rw [hfinal]
  refine ⟨rfl, by rw [List.range_eq_range'], rfl, ⟨?_, ?_⟩, ?_, fun _ => rfl⟩
  · simp
  · rw [List.map_fst_zip _ _ (by simp), List.range_eq_range']
  · unfold rebuildStore
    rw [hbase]
    simp

theorem rebuild_spec_witness :
    (rebuildStore (fun t => t.length) 2 (⟨[9], [(0, 1)], 1⟩ : StoreState Nat)
      [("aa".toList, 5), ("b".toList, 6), ("ccc".toList, 7)]).1.vecs =
        [("aa".toList, 5), ("b".toList, 6), ("ccc".toList, 7)].map (fun p => p.1.length) ∧
    (rebuildStore (fun t => t.length) 2 (⟨[9], [(0, 1)], 1⟩ : StoreState Nat)
      [("aa".toList, 5), ("b".toList, 6), ("ccc".toList, 7)]).1.idMap =
        (List.range 3).zip [5, 6, 7] ∧
    (rebuildStore (fun t => t.length) 2 (⟨[9], [(0, 1)], 1⟩ : StoreState Nat)
      [("aa".toList, 5), ("b".toList, 6), ("ccc".toList, 7)]).1.nextId = 3 ∧
    StoreInv (rebuildStore (fun t => t.length) 2 (⟨[9], [(0, 1)], 1⟩ : StoreState Nat)
      [("aa".toList, 5), ("b".toList, 6), ("ccc".toList, 7)]).1 ∧
    (rebuildStore (fun t => t.length) 2 (⟨[9], [(0, 1)], 1⟩ : StoreState Nat)
      [("aa".toList, 5), ("b".toList, 6), ("ccc".toList, 7)]).2 =
        [(rebuildStore (fun t => t.length) 2 (⟨[9], [(0, 1)], 1⟩ : StoreState Nat)
          [("aa".toList, 5), ("b".toList, 6), ("ccc".toList, 7)]).1] ∧
    (∀ prior' : StoreState Nat,
      rebuildStore (fun t => t.length) 2 prior'
        [("aa".toList, 5), ("b".toList, 6), ("ccc".toList, 7)] =
      rebuildStore (fun t => t.length) 2 ⟨[9], [(0, 1)], 1⟩
        [("aa".toList, 5), ("b".toList, 6), ("ccc".toList, 7)]) :=
  rebuild_spec Nat (fun t => t.length) 2 ⟨[9], [(0, 1)], 1⟩
    [("aa".toList, 5), ("b".toList, 6), ("ccc".toList, 7)] (by decide)

/-! ## Ingest orchestration (`src/server/ingest/pipeline.py`,
`src/server/api/routes.py`) -/

/-- The `IngestStatus` pydantic model (`api/schemas.py`) with its field
defaults; `trigger_ingest` starts a run from `IngestStatus(is_running=True)`. -/
structure IngestStatusM where
  is_running : Bool := false
  total_files : Nat := 0
  processed_files : Nat := 0
  failed_files : Nat := 0
  current_file : Option Str := none
  errors : List Str := []
  progress_percent : ℚ := 0
deriving DecidableEq, Repr

/-- How one iteration of the pipeline's per-file loop ends: skip (a record
already exists at this path), success with the store write succeeding
(vector-indexing errors are swallowed inside), success with the store
write raising (caught per file), `_process_single_file` reporting failure,
or an exception escaping the loop body itself (e.g. the dedup query). -/
inductive FileOutcome
  | skipExisting
  | okSaved
  | okSaveFail (err : Str)
  | procFail (err : Str)
  | raisesRun (err : Str)

/-- One scanned file: `file_path.name`, `str(file_path)` and how its
iteration ends. -/
structure FileItem where
  name : Str
  path : Str
  outcome : FileOutcome

/-- The `for idx, file_path in enumerate(files)` loop of
`IngestPipeline.run`: set `current_file` and
`progress_percent = idx / total * 100` first, then handle the file; after
the loop set `progress_percent = 100` and clear `current_file`.  Returns
the status as mutated so far, together with the exception escaping the
loop, if any (mutations made before a raise survive it). -/
def pipelineLoop (total : Nat) : List FileItem → Nat → IngestStatusM →
    IngestStatusM × Option Str
  | [], _, st => ({ st with progress_percent := 100, current_file := none }, none)
  | item :: rest, idx, st =>
    match item.outcome with
    | .raisesRun e =>
      Prod.mk
        { st with
            current_file := some item.name,
            progress_percent := (idx : ℚ) / (total : ℚ) * 100 }
        (some e)
    | .skipExisting =>
      pipelineLoop total rest (idx + 1)
        { st with
            current_file := some item.name,
            progress_percent := (idx : ℚ) / (total : ℚ) * 100,
            processed_files := st.processed_files + 1 }
    | .okSaved =>
      pipelineLoop total rest (idx + 1)
        { st with
            current_file := some item.name,
            progress_percent := (idx : ℚ) / (total : ℚ) * 100,
            processed_files := st.processed_files + 1 }
    | .okSaveFail e =>
      pipelineLoop total rest (idx + 1)
        { st with
            current_file := some item.name,
            progress_percent := (idx : ℚ) / (total : ℚ) * 100,
            failed_files := st.failed_files + 1,
            errors := st.errors ++ [item.name ++ ": ".toList ++ e] }
    | .procFail e =>
      pipelineLoop total rest (idx + 1)
        { st with
            current_file := some item.name,
            progress_percent := (idx : ℚ) / (total : ℚ) * 100,
            failed_files := st.failed_files + 1,
            errors := st.errors ++ [item.path ++ ": ".toList ++ e] }

/-- Model of `IngestPipeline.run`: scan (`scan` is the scanner's result, or the
exception it raises), set `total_files`, and return early when the scan
found no files — without touching `progress_percent` or `current_file`;
otherwise run the per-file loop. -/
def pipelineRun (scan : Except Str (List FileItem)) (st : IngestStatusM) :
    IngestStatusM × Option Str :=
  match scan with
  | .error e => (st, some e)
  | .ok files =>
    if files.isEmpty then ({ st with total_files := files.length }, none)
    else pipelineLoop files.length files 0 { st with total_files := files.length }

/-- Model of `routes.run_pipeline`: await the run; `except` appends an escaping
exception's message to the error list; `finally` clears `is_running`. -/
def runPipeline (scan : Except Str (List FileItem)) (st : IngestStatusM) :
    IngestStatusM :=
  match pipelineRun scan st with
  | (st', none) => { st' with is_running := false }
  | (st', some e) => { st' with errors := st'.errors ++ [e], is_running := false }

lemma runPipeline_eq (scan : Except Str (List FileItem)) (st : IngestStatusM) :
    runPipeline scan st =
      { (pipelineRun scan st).1 with
          errors := (pipelineRun scan st).1.errors ++ (pipelineRun scan st).2.toList,
          is_running := false } := by
  unfold runPipeline
  rcases h : pipelineRun scan st with ⟨st', exc⟩
  rcases exc with _ | e <;> simp [h]

lemma pipelineLoop_final (total : Nat) (items : List FileItem) : ∀ (idx : Nat)
    (st : IngestStatusM), (pipelineLoop total items idx st).2 = none →
    (pipelineLoop total items idx st).1.progress_percent = 100 ∧
    (pipelineLoop total items idx st).1.current_file = none := by
  induction items with
  | nil =>
    intro idx st _
    constructor <;> simp [pipelineLoop]
  | cons item rest ih =>
    intro idx st hnone
    rcases item with ⟨name, path, outcome⟩
    cases outcome with
    | raisesRun e => simp [pipelineLoop] at hnone
    | skipExisting =>
      simpa [pipelineLoop] using ih (idx + 1) _ (by simpa [pipelineLoop] using hnone)
    | okSaved =>
      simpa [pipelineLoop] using ih (idx + 1) _ (by simpa [pipelineLoop] using hnone)
    | okSaveFail e =>
      simpa [pipelineLoop] using ih (idx + 1) _ (by simpa [pipelineLoop] using hnone)
    | procFail e =>
      simpa [pipelineLoop] using ih (idx + 1) _ (by simpa [pipelineLoop] using hnone)

/-- C4 (counterexample): A run whose scan finds zero files does not end
with `progress_percent = 100`: `IngestPipeline.run` returns early before
the completion block, so the status keeps its initial progress 0 (while
`is_running` is still cleared by the caller's `finally`). -/
theorem run_end_zero_files_cex :
    (runPipeline (Except.ok []) { is_running := true }).is_running = false ∧
    (runPipeline (Except.ok []) { is_running := true }).progress_percent = 0 ∧
    (runPipeline (Except.ok []) { is_running := true }).progress_percent ≠ 100 := by
  refine ⟨by decide, by decide, by decide⟩

/-- C4 (amended): Every run — zero-file scans and escaping exceptions
included — ends with `is_running = false`, and an exception escaping the
run is appended to the status error list; additionally, when the scan
succeeds with at least one file and no exception escapes, the run ends
with `progress_percent = 100` and `current_file = none`.  (A zero-file run
returns early with progress still at its initial value; a run cut short by
an escaping exception keeps its partial progress and current file.) -/
theorem run_cleanup_spec (scan : Except Str (List FileItem)) (st : IngestStatusM) :
    ((runPipeline scan st).is_running = false) ∧
    (∀ e, (pipelineRun scan st).2 = some e → e ∈ (runPipeline scan st).errors) ∧
    (∀ files, scan = Except.ok files → files ≠ [] → (pipelineRun scan st).2 = none →
      (runPipeline scan st).progress_percent = 100 ∧
        (runPipeline scan st).current_file = none) := by
  refine ⟨by rw [runPipeline_eq], ?_, ?_⟩
  · intro e he
    rw [runPipeline_eq]
    simp [he]
  · intro files hscan hne hnone
    subst hscan
    have hemp : files.isEmpty = false := by
      simpa using hne
    rw [runPipeline_eq]
    simp only [pipelineRun, hemp] at hnone ⊢
    simp only [Bool.false_eq_true, if_false]
    exact pipelineLoop_final files.length files 0 _ (by simpa using hnone)

/-! ## C5: classification result tagging -/

/-- C5 (counterexample): No classification result carries a `source`
tag: the dicts built by `_rule_classify`, `_ml_classify` and the default
arm contain no `"source"` key.  Shown on one concrete input per path —
default, rule-tier, and embedding-fallback. -/
theorem source_tag_cex :
    (classifyWith (fun _ => none) [] [] []).source = none ∧
    (classifyWith (fun _ => none) "sql sql sql".toList [] []).source = none ∧
    (classifyWith (fun _ => some ("Programming", some "Python", 1/2)) [] [] []).source = none := by
  refine ⟨by decide, by decide, by decide⟩

/-- C5 (amended): Classification results carry no source tag; the path
that produced a result is identifiable only through `confidence`, which is
present exactly when the result came from the embedding-fallback path
(rule tier found nothing and `_ml_classify` returned a match). -/
theorem confidence_iff_embedding (ml : Str → Option (String × Option String × ℚ))
    (title text author : Str) :
    (classifyWith ml title text author).source = none ∧
    ((classifyWith ml title text author).confidence.isSome ↔
      (ruleClassify (title ++ [' '] ++ author ++ [' '] ++ text) = none ∧
        (ml (title ++ [' '] ++ author ++ [' '] ++ text)).isSome)) := by
  unfold classifyWith
  rcases h1 : ruleClassify (title ++ [' '] ++ author ++ [' '] ++ text) with _ | ⟨c, s⟩
  · rcases h2 : ml (title ++ [' '] ++ author ++ [' '] ++ text) with _ | ⟨c, s, conf⟩
    · simp [h1, h2]
    · simp [h1, h2]
  · simp [h1]

/-! ## C6: the embedding input derived by the pipeline -/

/-- The text `IngestPipeline.run` passes to `vector_store.add_text`:
`f"{book.title} {book.author} {book.text_content or ''}"` sliced to its
first 2000 characters (`[:2000]` applies to the whole f-string). -/
def textForEmbedding (title author textContent : Str) : Str :=
  (title ++ [' '] ++ author ++ [' '] ++ textContent).take 2000

/-- The claim's version, for comparison: title and author in full, only
the text portion truncated to 2000 characters. -/
def textForEmbeddingClaim (title author textContent : Str) : Str :=
  title ++ [' '] ++ author ++ [' '] ++ textContent.take 2000

/-- C6 (counterexample): With a 1-character title and author and a
2000-character text, the pipeline passes 2000 characters (the slice of the
whole concatenation), not the 2004 characters the claim describes. -/
theorem embedding_input_cex :
    textForEmbedding ['t'] ['a'] (List.replicate 2000 'x') ≠
      textForEmbeddingClaim ['t'] ['a'] (List.replicate 2000 'x') := by
  intro hEq
  have hlen := congrArg List.length hEq
  simp only [textForEmbedding, textForEmbeddingClaim, List.length_take,
    List.length_append, List.length_replicate, List.length_cons,
    List.length_nil] at hlen
  omega

/-- C6 (amended): The text passed to `add_text` is the first 2000
characters of the whole concatenation `title + " " + author + " " + text`:
a prefix of the concatenation, of length `min 2000 (total length)`, which
agrees with the claim's title-and-author-in-full version whenever the
whole concatenation fits in 2000 characters. -/
theorem embedding_input_spec (title author textContent : Str) :
    (∃ t, textForEmbedding title author textContent ++ t =
      title ++ [' '] ++ author ++ [' '] ++ textContent) ∧
    (textForEmbedding title author textContent).length =
      min 2000 (title ++ [' '] ++ author ++ [' '] ++ textContent).length ∧
    ((title ++ [' '] ++ author ++ [' '] ++ textContent).length ≤ 2000 →
      textForEmbedding title author textContent =
        textForEmbeddingClaim title author textContent) := by
  refine ⟨⟨(title ++ [' '] ++ author ++ [' '] ++ textContent).drop 2000,
    List.take_append_drop _ _⟩, List.length_take _ _, ?_⟩
  intro h
  unfold textForEmbedding textForEmbeddingClaim
  rw [List.take_of_length_le h, List.take_of_length_le ?_]
  simp only [List.length_append, List.length_cons] at h
  omega

/-! ## C7: the extractor never raises (`src/server/ingest/extractor.py`) -/

/-- The `BookMetadata` dataclass with its field defaults (cover bytes as a
list of byte values). -/
structure BookMetadataM where
  title : Str := []
  author : Str := "Unknown".toList
  isbn : Option Str := none
  publisher : Option Str := none
  year : Option Int := none
  language : Option Str := none
  description : Option Str := none
  page_count : Option Nat := none
  text_content : Str := []
  cover_image : Option (List Nat) := none
  cover_ext : Str := ".jpg".toList
deriving DecidableEq, Repr

/-- What the opaque document library does inside the `try` body of
`extract_pdf` / `extract_epub`: either the body completes with final
metadata `m`, or it raises at some point when the record has been mutated
to `m` so far (the `except` arm keeps those fields and overwrites only the
title). -/
inductive ExtractOutcome
  | completes (m : BookMetadataM)
  | raises (m : BookMetadataM)

/-- Model of `extract_pdf`: the whole body runs inside `try`; the `except` arm sets
`metadata.title = file_path.stem` and the record is returned either way —
the function never raises to its caller. -/
def extract_pdf (stem : Str) (o : ExtractOutcome) : BookMetadataM :=
  match o with
  | .completes m => m
  | .raises m => { m with title := stem }

/-- Model of `extract_epub`: identical failure shape to `extract_pdf`. -/
def extract_epub (stem : Str) (o : ExtractOutcome) : BookMetadataM :=
  match o with
  | .completes m => m
  | .raises m => { m with title := stem }

/-- Model of `extract_metadata`: dispatch on the lowercased file extension;
unsupported extensions yield `BookMetadata(title=file_path.stem)`.
`maxTextLength` is threaded to the format extractors, whose bodies (and
hence its effect) are abstracted in the outcome arguments. -/
def extract_metadata (stem suffix : Str) (maxTextLength : Nat)
    (pdfO epubO : ExtractOutcome) : BookMetadataM :=
  if lowerStr suffix = ".pdf".toList then extract_pdf stem pdfO
  else if lowerStr suffix = ".epub".toList then extract_epub stem epubO
  else { title := stem }

/-- C7: For every input path and `max_text_length`, `extract_metadata`
never raises (it is a total function of the underlying libraries'
outcomes): an unsupported extension yields the minimal record
`BookMetadata(title=stem)` — title = filename stem, every other field its
dataclass default — and any unexpected failure during PDF or EPUB
extraction is caught and degrades to a record whose title is the filename
stem. -/
theorem extract_never_raises (stem suffix : Str) (maxTextLength : Nat)
    (pdfO epubO : ExtractOutcome) :
    (lowerStr suffix ≠ ".pdf".toList → lowerStr suffix ≠ ".epub".toList →
      extract_metadata stem suffix maxTextLength pdfO epubO = { title := stem }) ∧
    (∀ m, pdfO = ExtractOutcome.raises m → lowerStr suffix = ".pdf".toList →
      (extract_metadata stem suffix maxTextLength pdfO epubO).title = stem) ∧
    (∀ m, epubO = ExtractOutcome.raises m → lowerStr suffix = ".epub".toList →
      (extract_metadata stem suffix maxTextLength pdfO epubO).title = stem) := by
  refine ⟨?_, ?_, ?_⟩
  · intro h1 h2
    unfold extract_metadata
    rw [if_neg h1, if_neg h2]
  · intro m hm hext
    subst hm
    simp [extract_metadata, hext, extract_pdf]
  · intro m hm hext
    subst hm
    have hne : lowerStr suffix ≠ ".pdf".toList := by
      rw [hext]
      decide
    simp [extract_metadata, hext, hne, extract_epub]

/-! ## C8: scanned-PDF detection (`src/server/ingest/ocr.py`) -/

/-- Model of `OCRProcessor.is_scanned_pdf`: Python's
`if not page_count or page_count == 0` treats a missing (`None`) and a
zero page count alike; otherwise compare `len(text) / page_count` against
`100 * scanned_text_threshold`. -/
def is_scanned_pdf (textThreshold : ℚ) (text : Str) (pageCount : Option Nat) : Bool :=
  match pageCount with
  | none => false
  | some n =>
    if n = 0 then false
    else decide ((text.length : ℚ) / (n : ℚ) < 100 * textThreshold)

/-- C8: `is_scanned` returns true exactly when the page count is
present and nonzero and `len(text) / page_count < 100 × threshold`; a zero
or missing page count always yields false.  With the default threshold
0.1: 50 chars over 10 pages ⇒ true, 2000 chars over 10 pages ⇒ false. -/
theorem is_scanned_spec (th : ℚ) (text : Str) (pc : Option Nat) :
    (is_scanned_pdf th text pc = true ↔
      ∃ n, pc = some n ∧ n ≠ 0 ∧ (text.length : ℚ) / (n : ℚ) < 100 * th) ∧
    is_scanned_pdf (1 / 10) (List.replicate 50 'x') (some 10) = true ∧
    is_scanned_pdf (1 / 10) (List.replicate 2000 'x') (some 10) = false := by
  refine ⟨?_, ?_, ?_⟩
  · rcases pc with _ | n
    · simp [is_scanned_pdf]
    · by_cases hn : n = 0
      · subst hn
        simp [is_scanned_pdf]
      · simp [is_scanned_pdf, hn]
  · simp only [is_scanned_pdf, List.length_replicate]
    norm_num
  · simp only [is_scanned_pdf, List.length_replicate]
    norm_num

end BookBrain
